import Mathlib

/-!
Verification of the cairu-companion voice pipeline.

This development gives a shallow embedding of the pipeline stages that the
specification talks about and proves (or refutes) the spec claims against it:

* the LLM worker's sentence-boundary splitter and per-sentence TTS fan-out
  (`src/services/llm/src/backends/ollama.py`, `src/services/llm/src/main.py`,
  `src/services/llm/src/router.py`);
* the VAD worker (`src/services/vad/src/detector.py`, `src/services/vad/src/main.py`);
* the Gateway socket endpoint and audio router
  (`src/services/gateway/src/main.py`, `routing.py`);
* the Orchestrator's transcript / LLM-response handlers and the conversation
  store (`src/services/orchestrator/src/main.py`, `state.py`);
* the TTS worker (`src/services/tts/src/main.py`).

Text is modelled as `List Char` (Python `str`), audio payloads as lists of
16-bit samples, and the Redis streams as the lists of records a handler
publishes to them.
-/

namespace Cairu

/-- Characters matched by Python's `\s` on ASCII text: space, tab, newline,
carriage return, vertical tab, form feed. -/
def isWsChar (c : Char) : Bool :=
  c = ' ' || c = '\t' || c = '\n' || c = '\r' || c = Char.ofNat 11 || c = Char.ofNat 12

/-- Sentence-ending punctuation of the splitter pattern `([.!?])\s+`
(`SENTENCE_SPLIT` in `ollama.py`). -/
def isPunct (c : Char) : Bool :=
  c = '.' || c = '!' || c = '?'

/-- Python `str.strip()`: drop whitespace from both ends. -/
def stripChars (l : List Char) : List Char :=
  (l.dropWhile isWsChar).rdropWhile isWsChar

/-- Head of the (reversed) accumulator is sentence punctuation, i.e. the
character last consumed by the scan below was `.`, `!` or `?`. -/
def headIsPunct : List Char → Bool
  | [] => false
  | c :: _ => isPunct c

/-- The left-to-right scan realizing `re.split(r'([.!?])\s+', buffer)`
together with the reconstruction loop of `OllamaBackend.generate_streaming`
(`ollama.py` lines 161-182). `acc` is the current segment in reverse; `sk` is
set while the scanner consumes the whitespace run `\s+` of a match. A match
is a punctuation character immediately followed by whitespace: the scanner
detects it on the whitespace character, when the punctuation heads `acc`.
Each completed sentence is the matched segment re-joined with its terminator
(`parts[i] + parts[i+1]` of the Python loop); the returned fragment is
`parts[-1]`. -/
def splitGo : List Char → Bool → List Char → List (List Char) × List Char
  | acc, _, [] => ([], acc.reverse)
  | acc, sk, c :: rest =>
    if sk = true ∧ isWsChar c = true then
      splitGo acc sk rest
    else if isWsChar c = true ∧ headIsPunct acc = true then
      (acc.reverse :: (splitGo [] true rest).1, (splitGo [] true rest).2)
    else
      splitGo (c :: acc) false rest

/-- Split a buffer at the pattern `([.!?])\s+` and reconstruct completed
sentences, returning (completed sentences, remaining fragment). -/
def splitBuffer (l : List Char) : List (List Char) × List Char :=
  splitGo [] false l

/-- Adjacent-character relation: this pair is not a sentence boundary (no
punctuation immediately followed by whitespace). -/
def sentR (a b : Char) : Prop := ¬(isPunct a = true ∧ isWsChar b = true)

instance : DecidableRel sentR := fun a b => by unfold sentR; infer_instance

/-- No occurrence of the boundary pattern anywhere inside the list. -/
abbrev NoBoundary (l : List Char) : Prop := l.Chain' sentR

/-- The last character is sentence punctuation. -/
def endsPunct (l : List Char) : Bool := headIsPunct l.reverse

/-- Non-empty with a non-whitespace first character. -/
def headNotWs : List Char → Bool
  | [] => false
  | c :: _ => !isWsChar c

/-- A clean sentence part: non-empty, stripped at both ends, and containing
no boundary pattern. -/
def partGood (p : List Char) : Prop :=
  headNotWs p = true ∧ headNotWs p.reverse = true ∧ NoBoundary p

/-- The rolling-buffer loop of `generate_streaming`: each content delta is
appended to the buffer and the buffer is re-split from scratch; completed
sentences are yielded, `parts[-1]` stays in the buffer. Returns all completed
raw sentences in order plus the final buffer. -/
def runDeltas : List Char → List (List Char) → List (List Char) × List Char
  | buf, [] => ([], buf)
  | buf, d :: ds =>
    let r := splitBuffer (buf ++ d)
    let rest := runDeltas r.2 ds
    (r.1 ++ rest.1, rest.2)

/-- A sentence chunk yielded by `generate_streaming`:
`{"sentence": ..., "is_final": ..., "tokens_used": ...}`. -/
structure SentChunk where
  sentence : List Char
  is_final : Bool
  tokens_used : Nat
deriving Repr, DecidableEq

/-- The non-final chunks of a streamed generation: each completed sentence is
stripped and yielded only if non-empty (`ollama.py` lines 184-192). -/
def nonFinalChunks (deltas : List (List Char)) : List SentChunk :=
  (runDeltas [] deltas).1.filterMap fun s =>
    if (stripChars s).isEmpty then none else some ⟨stripChars s, false, 0⟩

/-- The closing chunk of a completed stream: the stripped remaining buffer if
non-empty, else the empty sentence, with `is_final := true`
(`ollama.py` lines 199-213). -/
def finalChunk (deltas : List (List Char)) (evalCount : Nat) : SentChunk :=
  if (stripChars (runDeltas [] deltas).2).isEmpty then ⟨[], true, evalCount⟩
  else ⟨stripChars (runDeltas [] deltas).2, true, evalCount⟩

/-- `OllamaBackend.generate_streaming` on the sequence of non-empty content
deltas of a stream that runs to completion: sentence chunks as they complete,
then exactly one closing chunk. `evalCount` is the `eval_count` reported by
the backend's final line. -/
def generate_streaming (deltas : List (List Char)) (evalCount : Nat) : List SentChunk :=
  nonFinalChunks deltas ++ [finalChunk deltas evalCount]

/-! ## LLM worker (`src/services/llm/src/main.py`, `router.py`) -/

/-- The apostrophe character. -/
def apos : Char := Char.ofNat 39

/-- Default response text used when no non-empty sentence part was collected
(`main.py` line 196). -/
def defaultResponseText : List Char := 'I' :: apos :: "m here for you.".data

/-- A TTSRequest published to `tts.requests` (the fields the claims are
about). -/
structure TTSReq where
  request_id : List Char
  text : List Char
deriving Repr, DecidableEq

/-- The LLMResponse published to `llm.responses` (the fields the claims are
about). -/
structure LLMResp where
  request_id : List Char
  text : List Char
  model : List Char
  tokens_used : Nat
  is_fallback : Bool
deriving Repr, DecidableEq

/-- The `async for chunk in ollama_backend.generate_streaming(...)` loop of
`LLMService._handle_request` (`main.py` lines 167-194): every chunk with a
non-empty sentence is appended to `full_text_parts` and published to
`tts.requests` as `TTSRequest(request_id=f"<rid>-<idx>")`; on the first
`is_final` chunk the loop records `tokens_used` and breaks. Returns the
published TTSRequests, the collected parts, and `tokens_used`. -/
def consumeChunks (rid : List Char) : Nat → List SentChunk → List TTSReq × List (List Char) × Nat
  | _, [] => ([], [], 0)
  | idx, c :: cs =>
    if c.sentence.isEmpty then
      if c.is_final then ([], [], c.tokens_used)
      else consumeChunks rid idx cs
    else
      let tts : TTSReq := ⟨rid ++ '-' :: (Nat.repr idx).data, c.sentence⟩
      if c.is_final then ([tts], [c.sentence], c.tokens_used)
      else
        let r := consumeChunks rid (idx + 1) cs
        (tts :: r.1, c.sentence :: r.2.1, r.2.2)

/-- Python `" ".join(parts)`. -/
def joinSpace : List (List Char) → List Char
  | [] => []
  | [p] => p
  | p :: q :: t => p ++ ' ' :: joinSpace (q :: t)

/-- The configured model name published in every LLMResponse
(`settings.llm_model`, default `qwen2:0.5b`). -/
def llmModelName : List Char := "qwen2:0.5b".data

/-- Everything `LLMService._handle_request` publishes on the streaming path
for one request that streams to completion: the per-sentence TTSRequests and
the final LLMResponse with `full_text = " ".join(full_text_parts)` (or the
default text when no part was collected), `is_fallback = False` and
`model = settings.llm_model` (`main.py` lines 160-240). -/
def handle_request (rid : List Char) (deltas : List (List Char)) (evalCount : Nat) :
    List TTSReq × LLMResp :=
  let r := consumeChunks rid 0 (generate_streaming deltas evalCount)
  let fullText := if r.2.1.isEmpty then defaultResponseText else joinSpace r.2.1
  (r.1, ⟨rid, fullText, llmModelName, r.2.2, false⟩)

/-- Everything the worker publishes for one request when the backend stream
either completes (`failed = false`) or raises an `httpx.HTTPError` / timeout
after the given deltas (`failed = true`). On failure the sentences completed
before the error have already been published to `tts.requests`, the exception
propagates out of `_handle_request`, and the consumer loop only logs it
(`main.py` lines 104-107): no LLMResponse is published. -/
def llm_run (rid : List Char) (deltas : List (List Char)) (failed : Bool) (evalCount : Nat) :
    List TTSReq × Option LLMResp :=
  if failed then
    ((consumeChunks rid 0 (nonFinalChunks deltas)).1, none)
  else
    let r := handle_request rid deltas evalCount
    (r.1, some r.2)

/-- The static fallback pool of `LLMRouter` (`router.py` lines 12-18). -/
def FALLBACK_RESPONSES : List (List Char) :=
  [ 'I' :: apos :: "m here with you.".data
  , 'I' :: apos :: "m listening.".data
  , "Tell me more about that.".data
  , "I understand.".data
  , "That sounds important.".data ]

/-- Result dict of `LLMRouter.generate`. -/
structure RouterResult where
  text : List Char
  model : List Char
  tokens_used : Nat
  is_fallback : Bool
deriving Repr, DecidableEq

/-- `LLMRouter._get_static_fallback` (`router.py` lines 66-78): take the
current round-robin phrase and advance the index modulo the pool size. -/
def get_static_fallback (idx : Nat) : RouterResult × Nat :=
  (⟨FALLBACK_RESPONSES.getD (idx % FALLBACK_RESPONSES.length) [], "static_fallback".data,
    0, true⟩,
   (idx + 1) % FALLBACK_RESPONSES.length)

/-- `LLMRouter.generate` (`router.py` lines 37-64): try the primary backend if
registered; on success return its result with `is_fallback = False`; on any
exception (or missing primary) fall back to the static pool. `primary` is
`none` when `"ollama"` is absent from `backends`, `some (.error ())` when the
backend call raises, `some (.ok r)` on success. -/
def router_generate (primary : Option (Except Unit RouterResult)) (idx : Nat) :
    RouterResult × Nat :=
  match primary with
  | some (.ok r) => ({ r with is_fallback := false }, idx)
  | some (.error _) => get_static_fallback idx
  | none => get_static_fallback idx

/-- The sentences of a final text by the splitter definition: the completed
sentences of the boundary pattern plus the trailing fragment (which the
end-of-stream rule turns into the final sentence when non-empty), each
stripped and kept only if non-empty. -/
def splitterSentences (t : List Char) : List (List Char) :=
  (splitBuffer t).1.filterMap
    (fun s => if (stripChars s).isEmpty then none else some (stripChars s)) ++
  (if (stripChars (splitBuffer t).2).isEmpty then [] else [stripChars (splitBuffer t).2])

/-! ## Orchestrator LLM-response handler (`src/services/orchestrator/src/main.py`) -/

/-- A row appended to the `conversation_turns` table by
`ConversationStateManager.add_turn`. -/
structure OrchTurn where
  session_id : List Char
  role : List Char
  content : List Char
deriving Repr, DecidableEq

/-- `OrchestratorService._handle_llm_response` (`main.py` lines 178-205):
persist an `assistant`-role turn with the full text, then build a TTSRequest
with the parent `request_id` and the full text and publish it to
`tts.requests`. Returns the persisted turn and the published TTSRequests. -/
def handle_llm_response (request_id session_id text : List Char) :
    OrchTurn × List TTSReq :=
  (⟨session_id, "assistant".data, text⟩, [⟨request_id, text⟩])

/-! ## VAD worker (`src/services/vad/src/detector.py`, `src/services/vad/src/main.py`) -/

/-- Per-session VAD state (`VADState` dataclass, `detector.py` lines 17-29).
Buffered chunks are lists of 16-bit samples. -/
structure VADSt where
  is_speaking : Bool
  audio_buffer : List (List Int)
  speech_chunks : Nat
  silence_chunks : Nat
deriving Repr, DecidableEq

/-- About 200 ms of speech to start (`SPEECH_START_CHUNKS`). -/
def SPEECH_START_CHUNKS : Nat := 2

/-- One second of silence to end (`SILENCE_END_CHUNKS`). -/
def SILENCE_END_CHUNKS : Nat := 10

/-- 300 ms minimum speech (`MIN_SPEECH_CHUNKS`). -/
def MIN_SPEECH_CHUNKS : Nat := 3

/-- The state a session starts from (`VADState()` field defaults, created
lazily by `get_session_state`). -/
def freshVADSt : VADSt := ⟨false, [], 0, 0⟩

/-- `SileroVAD.process_with_boundary` (`detector.py` lines 166-238) given the
detector verdict `hasSpeech` for the chunk. Returns the session state after
the call — `none` when the call deleted the session entry (`reset_session`),
so that the next chunk starts from `freshVADSt` — and the emitted utterance
(the concatenation of the buffered chunks) if end of speech was declared with
enough buffered speech. The buffer after a silence chunk keeps accumulating
only while the session is speaking (captures trailing audio). -/
def vadBufferAfter (st : VADSt) (chunk : List Int) : List (List Int) :=
  if st.is_speaking then st.audio_buffer ++ [chunk] else st.audio_buffer

def process_with_boundary (st : VADSt) (hasSpeech : Bool) (chunk : List Int) :
    Option VADSt × Option (List Int) :=
  if hasSpeech then
    (some { is_speaking := st.is_speaking || decide (st.speech_chunks + 1 ≥ SPEECH_START_CHUNKS),
            audio_buffer := st.audio_buffer ++ [chunk],
            speech_chunks := st.speech_chunks + 1,
            silence_chunks := 0 }, none)
  else
    if st.is_speaking && decide (st.silence_chunks + 1 ≥ SILENCE_END_CHUNKS) then
      if MIN_SPEECH_CHUNKS ≤ (vadBufferAfter st chunk).length then
        (none, some (vadBufferAfter st chunk).flatten)
      else
        (none, none)
    else
      (some { is_speaking := st.is_speaking, audio_buffer := vadBufferAfter st chunk,
              speech_chunks := 0, silence_chunks := st.silence_chunks + 1 }, none)

/-- Total buffered milliseconds of a VAD session state, by the code's own
estimate `len(bytes) // 32` with two bytes per 16-bit sample. -/
def bufferedDurationMs (st : VADSt) : Nat :=
  (st.audio_buffer.map fun ch => 2 * ch.length / 32).sum

/-- The boolean speech verdict of the energy fallback `SileroVAD._detect_energy`
(`detector.py` lines 110-131): speech iff `rms > 800` with
`rms = sqrt(mean(sample²))`; squaring both sides of the comparison this is
`sum(sample²) > 640000 * n`, stated here exactly over the integers. -/
def detect_energy_has_speech (samples : List Int) : Bool :=
  decide ((samples.map fun s => s * s).sum > 640000 * (samples.length : Int))

/-- A `VADResult` record published to `audio.segments` (the fields the claims
are about). -/
structure VADResultRec where
  session_id : List Char
  has_speech : Bool
  audio_data : List Int
  duration_ms : Nat
deriving Repr, DecidableEq

/-- `VADService._process_segment` (`vad/main.py` lines 85-133): return with a
warning on empty audio, run the detector on the single chunk, and publish a
`VADResult` to `audio.segments` exactly when the detector said speech. No
session state is consulted: `process_with_boundary` is never called by the
service. `duration_ms` is `len(audio_data) // 32` over bytes, i.e. two bytes
per sample. -/
def process_segment (session_id : List Char) (audio : List Int) (hasSpeech : Bool) :
    Option VADResultRec :=
  if audio.isEmpty then none
  else if hasSpeech then some ⟨session_id, true, audio, 2 * audio.length / 32⟩
  else none

/-! ## Gateway (`src/services/gateway/src/main.py`, `routing.py`) -/

/-- A socket frame from the device. -/
inductive WSFrame where
  | binary (data : List Int)
  | text (msg : List Char)
deriving Repr, DecidableEq

/-- An `AudioSegment` record published to `audio.inbound` with the added
`is_streaming` field (`routing.py` lines 73-92). -/
structure AudioChunkRec where
  device_id : List Char
  session_id : List Char
  audio_data : List Int
  duration_ms : Nat
  is_streaming : Bool
deriving Repr, DecidableEq

/-- `AudioRouter` state: the `_device_sessions` map plus a supply of fresh
uuid nonces (modelling `uuid4().hex[:8]`, fresh on every call). -/
structure AudioRouterSt where
  device_sessions : List (List Char × List Char)
  uuid_supply : Nat
deriving Repr, DecidableEq

/-- The router state a fresh gateway process starts from. -/
def freshRouterSt : AudioRouterSt := ⟨[], 0⟩

/-- `AudioRouter._get_session_id` (`routing.py` lines 38-43): reuse the mapped
session id when the device is present, else mint
`f"{device_id}-{uuid4().hex[:8]}"` and store it. -/
def get_session_id (st : AudioRouterSt) (device : List Char) :
    List Char × AudioRouterSt :=
  match st.device_sessions.lookup device with
  | some s => (s, st)
  | none =>
    let sid := device ++ '-' :: (Nat.repr st.uuid_supply).data
    (sid, ⟨st.device_sessions ++ [(device, sid)], st.uuid_supply + 1⟩)

/-- `AudioRouter.reset_session` (`routing.py` lines 45-49): pop the device's
entry. Defined in the source but never invoked by the gateway. -/
def reset_session (st : AudioRouterSt) (device : List Char) : AudioRouterSt :=
  { st with device_sessions := st.device_sessions.filter fun p => !(p.1 == device) }

/-- `AudioRouter.route_audio` (`routing.py` lines 51-103): look up or mint the
session id and publish the `AudioSegment` record with the `is_streaming` flag
the caller passed. `duration_ms` is `len(audio_data) // 32` over bytes. -/
def route_audio (st : AudioRouterSt) (device : List Char) (audio : List Int)
    (is_streaming : Bool) : AudioRouterSt × AudioChunkRec :=
  let r := get_session_id st device
  (r.2, ⟨device, r.1, audio, 2 * audio.length / 32, is_streaming⟩)

/-- The receive loop of `websocket_endpoint` (`gateway/main.py` lines
152-166): `receive_bytes()` yields the payload of a binary frame, which is
routed with the defaults `is_final=False, is_streaming=False`; on a JSON text
frame `receive_bytes()` raises (a text message has no `bytes` payload), the
exception is logged as `websocket_error` and the loop ends — nothing is
published for that frame or any later one on this connection. -/
def websocket_receive_loop (device : List Char) :
    AudioRouterSt → List WSFrame → AudioRouterSt × List AudioChunkRec
  | st, [] => (st, [])
  | st, .binary b :: rest =>
    let r := route_audio st device b false
    let rs := websocket_receive_loop device r.1 rest
    (rs.1, r.2 :: rs.2)
  | st, .text _ :: _ => (st, [])

/-- One gateway process handling a sequence of connections of the single
device, each connection being its list of frames: `websocket_endpoint`
runs the receive loop, and its `finally` block calls only
`manager.disconnect(device_id)` — `AudioRouter.reset_session` is never
called, so the router state carries over to the next connection with the
`_device_sessions` entry intact. Returns the chunk records published per
connection. -/
def gateway_run (device : List Char) :
    AudioRouterSt → List (List WSFrame) → AudioRouterSt × List (List AudioChunkRec)
  | st, [] => (st, [])
  | st, frames :: more =>
    let r := websocket_receive_loop device st frames
    let rest := gateway_run device r.1 more
    (rest.1, r.2 :: rest.2)

/-! ## Orchestrator transcript flow and conversation store
(`src/services/orchestrator/src/main.py`, `state.py`) -/

/-- `ConversationStateManager.get_conversation_history` (`state.py` lines
149-167): `SELECT role, content ... WHERE session_id = ? ORDER BY id DESC
LIMIT ?`, then `reversed(rows)`. The table is modelled as the list of turns
in insertion (= autoincrement id) order. -/
def get_conversation_history (db : List OrchTurn) (sid : List Char) (limit : Nat) :
    List (List Char × List Char) :=
  ((((db.filter fun t => t.session_id == sid).reverse).take limit).reverse).map
    fun t => (t.role, t.content)

/-- The fields of the published `LLMRequest` that the claims are about. -/
structure LLMRequestRec where
  session_id : List Char
  user_message : List Char
  conversation_history : List (List Char × List Char)
  max_tokens : Nat
deriving Repr, DecidableEq

/-- `OrchestratorService._handle_transcript` (`main.py` lines 108-158): drop
when the stripped text is empty; otherwise read the history (limit 10)
before persisting the `user`-role turn, build the request with
`max_tokens=60`, persist the turn and publish the request. -/
def handle_transcript (db : List OrchTurn) (session_id text : List Char) :
    List OrchTurn × Option LLMRequestRec :=
  if (stripChars text).isEmpty then (db, none)
  else
    (db ++ [⟨session_id, "user".data, text⟩],
     some ⟨session_id, text, get_conversation_history db session_id 10, 60⟩)

/-- An event consumed by the orchestrator's two stream loops. -/
inductive OrchEvent where
  | transcript (session_id text : List Char)
  | llmResponse (request_id session_id text : List Char)

/-- Effect of one orchestrator event on the `conversation_turns` table. -/
def orch_db_step (db : List OrchTurn) : OrchEvent → List OrchTurn
  | .transcript sid text => (handle_transcript db sid text).1
  | .llmResponse rid sid text => db ++ [(handle_llm_response rid sid text).1]

/-- The `conversation_turns` table after a sequence of orchestrator events,
starting from the empty table. -/
def orch_db_run (events : List OrchEvent) : List OrchTurn :=
  events.foldl orch_db_step []

/-! ## TTS worker (`src/services/tts/src/main.py`) -/

/-- The record published to `audio.outbound` (the fields the claims are
about); `audio_data` and `duration_ms` come from the synthesizer. -/
structure TTSOutRec where
  request_id : List Char
  session_id : List Char
  text : List Char
  audio_data : List Int
  duration_ms : Nat
deriving Repr, DecidableEq

/-- `TTSService._handle_request` (`tts/main.py` lines 88-138): when the
stripped text is empty, log `empty_tts_request` and return — nothing is
published and no exception is raised; otherwise synthesize and publish to
`audio.outbound`. The synthesizer (`PiperSynthesizer.synthesize`, an external
neural engine) is a parameter returning (samples, duration_ms). -/
def tts_handle_request (synthesize : List Char → List Int × Nat)
    (request_id session_id text : List Char) : Option TTSOutRec :=
  if (stripChars text).isEmpty then none
  else some ⟨request_id, session_id, text, (synthesize text).1, (synthesize text).2⟩

/-- A VAD session state holding 301 buffered 100 ms chunks (1600 samples at
16 kHz each), i.e. 30100 ms — past the spec's claimed 30000 ms cap. -/
def overcapSt : VADSt := ⟨true, List.replicate 301 (List.replicate 1600 (1000 : Int)), 301, 0⟩

/-- A VAD session state one silence chunk away from end-of-speech with two
buffered chunks. -/
def emitReadySt : VADSt := ⟨true, [[1000], [1000]], 0, 9⟩

/-- The JSON text frame sent by the repository's own streaming client
(`scripts/test_streaming.py` lines 112-117). -/
def streamTextFrameMsg : List Char :=
  Char.ofNat 123 ::
    "\"type\": \"audio_stream\", \"audio\": \"AAAA\", \"is_streaming\": true".data ++
    [Char.ofNat 125]

/-! ## Basic splitter facts -/

-- Boundary behavior of the splitter on the spec's worked example.
example :
    splitBuffer ("Hi. How are you? Im fine".data) =
      (["Hi.".data, "How are you?".data], "Im fine".data) := by decide

example : splitBuffer ("Hello.".data) = ([], "Hello.".data) := by decide

/-- When the scanned text has no boundary pattern across the junction between
the reversed accumulator and the next character, and that character is
whitespace, the accumulator cannot end in punctuation. -/
theorem noBoundary_junction {acc : List Char} {c : Char} {rest : List Char}
    (hnb : NoBoundary (acc.reverse ++ c :: rest)) (hw : isWsChar c = true) :
    headIsPunct acc = false := by
  cases acc with
  | nil => rfl
  | cons a as =>
    by_cases hp : isPunct a = true
    · exfalso
      have h1 : List.Chain' sentR ((as.reverse ++ [a]) ++ c :: rest) := by
        simpa [List.append_assoc] using hnb
      obtain ⟨-, -, hj⟩ := List.chain'_append.mp h1
      exact hj a (by simp) c rfl ⟨hp, hw⟩
    · simp [headIsPunct, hp]

/-- Scanning a boundary-free block consumes it into the accumulator. -/
theorem splitGo_consume (p : List Char) : ∀ (acc r : List Char),
    NoBoundary (acc.reverse ++ p) →
    splitGo acc false (p ++ r) = splitGo (p.reverse ++ acc) false r := by
  induction p with
  | nil => intro acc r _; simp
  | cons c rest ih =>
    intro acc r hnb
    have hnotrig : ¬(isWsChar c = true ∧ headIsPunct acc = true) := by
      rintro ⟨hw, hp⟩
      simp [noBoundary_junction hnb hw] at hp
    have e1 : splitGo acc false (c :: (rest ++ r)) = splitGo (c :: acc) false (rest ++ r) := by
      simp only [splitGo]
      rw [if_neg (by simp), if_neg hnotrig]
    rw [List.cons_append, e1, ih (c :: acc) r (by simpa [List.append_assoc] using hnb)]
    simp [List.append_assoc]

/-- Consuming the whitespace run after a boundary makes no difference once a
non-whitespace character (or the end of input) is reached. -/
theorem splitGo_skip (t : List Char)
    (h : ∀ c, t.head? = some c → isWsChar c = false) :
    splitGo [] true t = splitGo [] false t := by
  cases t with
  | nil => rfl
  | cons c rest =>
    have hc : isWsChar c = false := h c rfl
    simp [splitGo, hc, headIsPunct]

/-- A whitespace character arriving while the accumulator ends in punctuation
closes the current sentence. -/
theorem splitGo_boundary (acc : List Char) (c : Char) (t : List Char)
    (hw : isWsChar c = true) (hp : headIsPunct acc = true) :
    splitGo acc false (c :: t) =
      (acc.reverse :: (splitGo [] true t).1, (splitGo [] true t).2) := by
  simp only [splitGo]
  rw [if_neg (by simp), if_pos ⟨hw, hp⟩]

/-- Every sentence produced by the scan is non-empty, free of boundary
patterns and ends in punctuation, and the remaining fragment is free of
boundary patterns. -/
theorem splitGo_inv (l : List Char) : ∀ (acc : List Char) (sk : Bool),
    NoBoundary acc.reverse →
    (∀ s ∈ (splitGo acc sk l).1, s ≠ [] ∧ NoBoundary s ∧ endsPunct s = true) ∧
    NoBoundary (splitGo acc sk l).2 := by
  induction l with
  | nil =>
    intro acc sk hacc
    refine ⟨fun s hs => ?_, by simpa [splitGo] using hacc⟩
    simp [splitGo] at hs
  | cons c rest ih =>
    intro acc sk hacc
    simp only [splitGo]
    by_cases h1 : sk = true ∧ isWsChar c = true
    · rw [if_pos h1]; exact ih acc sk hacc
    · rw [if_neg h1]
      by_cases h2 : isWsChar c = true ∧ headIsPunct acc = true
      · rw [if_pos h2]
        have ihr := ih [] true (by simp)
        constructor
        · intro s hs
          rcases List.mem_cons.mp hs with h | h
          · subst h
            refine ⟨?_, hacc, ?_⟩
            · cases acc with
              | nil => simp [headIsPunct] at h2
              | cons a as => simp
            · show headIsPunct acc.reverse.reverse = true
              rw [List.reverse_reverse]; exact h2.2
          · exact ihr.1 s h
        · exact ihr.2
      · rw [if_neg h2]
        apply ih (c :: acc) false
        rw [List.reverse_cons]
        refine List.chain'_append.mpr ⟨hacc, List.chain'_singleton c, ?_⟩
        intro x hx y hy
        simp at hy
        subst hy
        rintro ⟨hpx, hwc⟩
        have hnp : headIsPunct acc = false := by
          cases hh : headIsPunct acc
          · rfl
          · exact absurd ⟨hwc, hh⟩ h2
        rw [List.getLast?_reverse] at hx
        cases acc with
        | nil => simp at hx
        | cons a as =>
          simp at hx
          subst hx
          simp [headIsPunct, hpx] at hnp

theorem punct_not_ws {c : Char} (h : isPunct c = true) : isWsChar c = false := by
  simp [isPunct] at h
  rcases h with (h | h) | h <;> subst h <;> decide

theorem getLast?_dropWhile {p : Char → Bool} {l : List Char} {c : Char}
    (h : l.getLast? = some c) (hc : p c = false) :
    (l.dropWhile p).getLast? = some c := by
  have hne : l.dropWhile p ≠ [] := by
    intro hnil
    have hmem := List.dropWhile_eq_nil_iff.mp hnil c (List.mem_of_mem_getLast? h)
    rw [hc] at hmem
    cases hmem
  obtain ⟨t, ht⟩ := List.dropWhile_suffix p (l := l)
  rw [← ht, List.getLast?_append_of_ne_nil _ hne] at h
  exact h

theorem stripChars_eq_dropWhile {l : List Char} {c : Char}
    (h : l.getLast? = some c) (hc : isWsChar c = false) :
    stripChars l = l.dropWhile isWsChar := by
  unfold stripChars
  apply List.rdropWhile_eq_self_iff.mpr
  intro hl
  have h2 := getLast?_dropWhile h hc
  rw [List.getLast?_eq_getLast _ hl] at h2
  rw [Option.some.inj h2, hc]
  simp

theorem headIsPunct_of_head? {l : List Char} {c : Char}
    (h : l.head? = some c) (hp : isPunct c = true) : headIsPunct l = true := by
  cases l with
  | nil => cases h
  | cons a as =>
    simp at h
    subst h
    simpa [headIsPunct] using hp

/-- Stripping a sentence that ends in punctuation: the result is non-empty,
still ends in punctuation, and only leading whitespace was removed. -/
theorem stripChars_ends_punct {s : List Char} (hp : endsPunct s = true) :
    stripChars s ≠ [] ∧ endsPunct (stripChars s) = true ∧
    stripChars s = s.dropWhile isWsChar := by
  cases hrev : s.reverse with
  | nil => simp [endsPunct, hrev, headIsPunct] at hp
  | cons b bs =>
    have hb : isPunct b = true := by simpa [endsPunct, hrev, headIsPunct] using hp
    have hlast : s.getLast? = some b := by
      rw [← List.head?_reverse, hrev]; rfl
    have hbn := punct_not_ws hb
    have heq := stripChars_eq_dropWhile hlast hbn
    have hlast2 := getLast?_dropWhile hlast hbn
    refine ⟨?_, ?_, heq⟩
    · rw [heq]
      intro hnil
      rw [hnil] at hlast2
      cases hlast2
    · rw [heq]
      show headIsPunct (s.dropWhile isWsChar).reverse = true
      apply headIsPunct_of_head? _ hb
      rw [List.head?_reverse]
      exact hlast2

/-- A non-empty stripped string is a clean part whenever the original had no
boundary pattern. -/
theorem stripChars_partGood {s : List Char} (h3 : NoBoundary s)
    (hne : stripChars s ≠ []) : partGood (stripChars s) := by
  have hdef : stripChars s = (s.dropWhile isWsChar).rdropWhile isWsChar := rfl
  refine ⟨?_, ?_, ?_⟩
  · cases hr : stripChars s with
    | nil => exact absurd hr hne
    | cons a as =>
      have hpre : stripChars s <+: s.dropWhile isWsChar := by
        rw [hdef]; exact List.rdropWhile_prefix _ _
      obtain ⟨t, ht⟩ := hpre
      rw [hr] at ht
      have ht' : s.dropWhile isWsChar = a :: (as ++ t) := by
        rw [← ht]; rfl
      have hnw := List.head_dropWhile_not isWsChar s (by rw [ht']; simp)
      simp only [ht', List.head_cons] at hnw
      simp [headNotWs, hnw]
  · cases hrev : (stripChars s).reverse with
    | nil =>
      exact absurd (by simpa using congrArg List.reverse hrev) hne
    | cons b bs =>
      have hlast : (stripChars s).getLast? = some b := by
        rw [← List.head?_reverse, hrev]; rfl
      have hne2 : (s.dropWhile isWsChar).rdropWhile isWsChar ≠ [] := by
        rw [← hdef]; exact hne
      have hlastn := List.rdropWhile_last_not isWsChar (s.dropWhile isWsChar) hne2
      simp only [Bool.not_eq_true] at hlastn
      have e1 : (stripChars s).getLast? = some
          (((s.dropWhile isWsChar).rdropWhile isWsChar).getLast hne2) := by
        rw [hdef]
        exact List.getLast?_eq_getLast _ hne2
      rw [hlast] at e1
      have hwb : isWsChar b = false := by
        rw [Option.some.inj e1]
        exact hlastn
      simp [headNotWs, hwb]
  · have h1 : stripChars s <+: s.dropWhile isWsChar := by
      rw [hdef]; exact List.rdropWhile_prefix _ _
    have h2 : s.dropWhile isWsChar <:+ s := List.dropWhile_suffix _
    exact List.Chain'.infix h3 (h1.isInfix.trans h2.isInfix)

/-- Stripping is the identity on clean parts. -/
theorem stripChars_id_of_partGood {p : List Char} (h : partGood p) : stripChars p = p := by
  obtain ⟨h1, h2, -⟩ := h
  have hnep : p ≠ [] := by
    intro h0
    rw [h0] at h1
    cases h1
  obtain ⟨a, as, hp⟩ := List.exists_cons_of_ne_nil hnep
  have ha : isWsChar a = false := by
    rw [hp] at h1
    simpa [headNotWs] using h1
  have hdw : p.dropWhile isWsChar = p := by
    rw [hp, List.dropWhile_cons, ha]
    simp
  have hrevne : p.reverse ≠ [] := by simp [hnep]
  obtain ⟨b, bs, hrev⟩ := List.exists_cons_of_ne_nil hrevne
  have hb : isWsChar b = false := by
    rw [hrev] at h2
    simpa [headNotWs] using h2
  have hlast : p.getLast? = some b := by
    rw [← List.head?_reverse, hrev]; rfl
  rw [stripChars_eq_dropWhile hlast hb, hdw]

theorem joinSpace_head? (q : List Char) (t : List (List Char)) (hq : q ≠ []) :
    (joinSpace (q :: t)).head? = q.head? := by
  cases t with
  | nil => rfl
  | cons r rs =>
    show (q ++ ' ' :: joinSpace (r :: rs)).head? = q.head?
    exact List.head?_append_of_ne_nil _ hq

/-- Splitting the space-join of clean parts (all of which but possibly the
last end in punctuation) recovers exactly those parts: all but the last as
completed sentences, the last as the remaining fragment. -/
theorem splitBuffer_joinSpace (parts : List (List Char)) :
    ∀ (hne : parts ≠ []), (∀ p ∈ parts, partGood p) →
    (∀ p ∈ parts.dropLast, endsPunct p = true) →
    splitBuffer (joinSpace parts) = (parts.dropLast, parts.getLast hne) := by
  induction parts with
  | nil => intro hne; exact absurd rfl hne
  | cons p qs ih =>
    intro hne hgood hpunct
    cases qs with
    | nil =>
      obtain ⟨-, -, h3⟩ := hgood p (by simp)
      show splitGo [] false p = ([], p)
      have e := splitGo_consume p [] [] (by simpa using h3)
      simp only [List.append_nil] at e
      rw [e]
      simp [splitGo]
    | cons q qs2 =>
      obtain ⟨hp1, hp2, hp3⟩ := hgood p (by simp)
      have hpunctp : endsPunct p = true := hpunct p (by simp)
      have hpX : headIsPunct p.reverse = true := hpunctp
      obtain ⟨hq1, -, -⟩ := hgood q (by simp)
      have hqne : q ≠ [] := by
        intro h0
        rw [h0] at hq1
        cases hq1
      have hskip := splitGo_skip (joinSpace (q :: qs2)) (by
        intro c hc
        rw [joinSpace_head? q qs2 hqne] at hc
        obtain ⟨a, as, hqeq⟩ := List.exists_cons_of_ne_nil hqne
        rw [hqeq] at hc
        simp at hc
        subst hc
        rw [hqeq] at hq1
        simpa [headNotWs] using hq1)
      show splitGo [] false (p ++ ' ' :: joinSpace (q :: qs2)) = _
      rw [splitGo_consume p [] _ (by simpa using hp3)]
      simp only [List.append_nil]
      rw [splitGo_boundary p.reverse ' ' _ (by decide) hpX, hskip]
      have ihh := ih (by simp) (fun r hr => hgood r (by simp [hr]))
        (fun r hr => hpunct r (by rw [List.dropLast_cons₂]; exact List.mem_cons_of_mem p hr))
      show (p.reverse.reverse :: (splitBuffer (joinSpace (q :: qs2))).1,
            (splitBuffer (joinSpace (q :: qs2))).2) = _
      rw [List.reverse_reverse, ihh]
      refine Prod.ext ?_ ?_
      · show p :: (q :: qs2).dropLast = (p :: q :: qs2).dropLast
        rw [List.dropLast_cons₂]
      · show (q :: qs2).getLast (by simp) = (p :: q :: qs2).getLast hne
        rw [List.getLast_cons (by simp : (q :: qs2) ≠ [])]

theorem filterMap_strip_id (l : List (List Char))
    (h : ∀ p ∈ l, stripChars p = p ∧ p ≠ []) :
    l.filterMap (fun s => if (stripChars s).isEmpty then none
      else some (stripChars s)) = l := by
  induction l with
  | nil => rfl
  | cons a t ih =>
    obtain ⟨ha1, ha2⟩ := h a (by simp)
    obtain ⟨x, xs, hx⟩ := List.exists_cons_of_ne_nil ha2
    subst hx
    rw [List.filterMap_cons]
    simp only [ha1, List.isEmpty_cons]
    exact congrArg _ (ih fun p hp => h p (by simp [hp]))

/-- The splitter-sentence list of the space-join of clean parts is exactly
that list of parts. -/
theorem splitterSentences_join (parts : List (List Char)) (hne : parts ≠ [])
    (hgood : ∀ p ∈ parts, partGood p)
    (hpunct : ∀ p ∈ parts.dropLast, endsPunct p = true) :
    splitterSentences (joinSpace parts) = parts := by
  unfold splitterSentences
  rw [splitBuffer_joinSpace parts hne hgood hpunct]
  have hlastgood := hgood (parts.getLast hne) (List.getLast_mem hne)
  have hlastne : parts.getLast hne ≠ [] := by
    intro h0
    have := hlastgood.1
    rw [h0] at this
    cases this
  have hlaststrip : stripChars (parts.getLast hne) = parts.getLast hne :=
    stripChars_id_of_partGood hlastgood
  rw [filterMap_strip_id _ (fun p hp => by
    have hg := hgood p (( List.dropLast_prefix parts).subset hp)
    refine ⟨stripChars_id_of_partGood hg, ?_⟩
    intro h0
    have := hg.1
    rw [h0] at this
    cases this)]
  rw [hlaststrip, if_neg (by simp [List.isEmpty_iff, hlastne])]
  exact List.dropLast_append_getLast hne

/-- Every completed sentence produced over the whole delta stream is
non-empty, boundary-free and punctuation-terminated, and the residual buffer
is boundary-free. -/
theorem runDeltas_inv (deltas : List (List Char)) : ∀ (buf : List Char), NoBoundary buf →
    (∀ s ∈ (runDeltas buf deltas).1, s ≠ [] ∧ NoBoundary s ∧ endsPunct s = true) ∧
    NoBoundary (runDeltas buf deltas).2 := by
  induction deltas with
  | nil =>
    intro buf hbuf
    refine ⟨fun s hs => ?_, by simpa [runDeltas] using hbuf⟩
    simp [runDeltas] at hs
  | cons d ds ih =>
    intro buf hbuf
    have hscan := splitGo_inv (buf ++ d) [] false (by simp)
    constructor
    · intro s hs
      simp only [runDeltas] at hs
      rcases List.mem_append.mp hs with h | h
      · exact hscan.1 s h
      · exact (ih _ hscan.2).1 s h
    · simp only [runDeltas]
      exact (ih _ hscan.2).2

/-- Properties of the non-final chunks of a streamed generation: not final,
with a non-empty clean punctuation-terminated sentence. -/
theorem nonFinalChunks_mem {deltas : List (List Char)} {c : SentChunk}
    (h : c ∈ nonFinalChunks deltas) :
    c.is_final = false ∧ c.sentence ≠ [] ∧ partGood c.sentence ∧
    endsPunct c.sentence = true := by
  simp only [nonFinalChunks, List.mem_filterMap] at h
  obtain ⟨s, hs, hfs⟩ := h
  obtain ⟨hs1, hs2, hs3⟩ := (runDeltas_inv deltas [] (by simp)).1 s hs
  split at hfs
  · cases hfs
  · cases hfs
    obtain ⟨hne', hep, -⟩ := stripChars_ends_punct hs3
    exact ⟨rfl, hne', stripChars_partGood hs2 hne', hep⟩

theorem finalChunk_is_final (deltas : List (List Char)) (n : Nat) :
    (finalChunk deltas n).is_final = true := by
  simp only [finalChunk]
  split <;> rfl

theorem nonFinalChunks_is_final {deltas : List (List Char)} {c : SentChunk}
    (h : c ∈ nonFinalChunks deltas) : c.is_final = false := by
  simp only [nonFinalChunks, List.mem_filterMap] at h
  obtain ⟨s, -, hs⟩ := h
  split at hs
  · simp at hs
  · cases hs; rfl

/-- Behavior of the `_handle_request` chunk loop on a stream of non-final
chunks followed by the single final chunk: the collected parts are the
non-final sentences plus the final fragment when non-empty; the published
TTSRequests carry exactly those texts, with request ids
`rid-idx, rid-(idx+1), ...` in order. -/
theorem consumeChunks_spec (rid : List Char) (nf : List SentChunk) :
    ∀ (fin : SentChunk) (idx : Nat),
    (∀ c ∈ nf, c.is_final = false ∧ c.sentence ≠ []) →
    fin.is_final = true →
    (consumeChunks rid idx (nf ++ [fin])).2.1 =
      nf.map (fun c => c.sentence) ++
        (if fin.sentence.isEmpty then [] else [fin.sentence]) ∧
    (consumeChunks rid idx (nf ++ [fin])).1.map (fun t => t.text) =
      (consumeChunks rid idx (nf ++ [fin])).2.1 ∧
    (consumeChunks rid idx (nf ++ [fin])).1.map (fun t => t.request_id) =
      (List.range (consumeChunks rid idx (nf ++ [fin])).1.length).map
        (fun i => rid ++ '-' :: (Nat.repr (idx + i)).data) := by
  induction nf with
  | nil =>
    intro fin idx hnf hfin
    simp only [List.nil_append, consumeChunks]
    by_cases hs : fin.sentence.isEmpty = true
    · rw [if_pos hs, if_pos hfin]
      simp [hs]
    · have hs' : fin.sentence.isEmpty = false := by rwa [Bool.not_eq_true] at hs
      rw [if_neg hs, if_pos hfin]
      refine ⟨by simp [hs'], by simp, ?_⟩
      simp [List.range_succ]
  | cons c cs ih =>
    intro fin idx hnf hfin
    obtain ⟨hcf, hcs⟩ := hnf c (by simp)
    have hcs' : c.sentence.isEmpty = false := by simp [List.isEmpty_iff, hcs]
    rw [List.cons_append]
    simp only [consumeChunks]
    rw [if_neg (by simp [hcs']), if_neg (by simp [hcf])]
    obtain ⟨ih1, ih2, ih3⟩ := ih fin (idx + 1) (fun x hx => hnf x (by simp [hx])) hfin
    refine ⟨?_, ?_, ?_⟩
    · rw [List.map_cons, List.cons_append]
      exact congrArg _ ih1
    · rw [List.map_cons]
      exact congrArg _ ih2
    · rw [List.map_cons, ih3, List.length_cons, List.range_succ_eq_map,
        List.map_cons, List.map_map]
      refine congrArg₂ List.cons (by simp) ?_
      refine List.map_congr_left fun i _ => ?_
      have harith : idx + 1 + i = idx + Nat.succ i := by omega
      simp [Function.comp, harith]

/-- The final chunk's fragment, when non-empty, is a clean part. -/
theorem finalChunk_sentence_good {deltas : List (List Char)} {n : Nat}
    (hne : (finalChunk deltas n).sentence ≠ []) :
    partGood (finalChunk deltas n).sentence := by
  unfold finalChunk at hne ⊢
  split at hne
  · exact absurd rfl hne
  · next hcond =>
    rw [if_neg hcond]
    have hnb := (runDeltas_inv deltas [] (by simp)).2
    have hstrip : stripChars (runDeltas [] deltas).2 ≠ [] := by
      intro h0
      exact hcond (by rw [h0]; rfl)
    exact stripChars_partGood hnb hstrip

/-! ## Claim theorems -/

/-- C6: for every streamed generation that runs to completion, the sentence
chunk sequence of `generate_streaming` contains exactly one chunk with
`is_final = true`, and that chunk is the last element of the sequence. -/
theorem generate_streaming_single_final (deltas : List (List Char)) (n : Nat) :
    ((generate_streaming deltas n).countP fun c => c.is_final) = 1 ∧
    ((generate_streaming deltas n).getLast?.map fun c => c.is_final) = some true := by
  constructor
  · rw [generate_streaming, List.countP_append]
    have h0 : (nonFinalChunks deltas).countP (fun c => c.is_final) = 0 := by
      rw [List.countP_eq_zero]
      intro a ha
      simp [nonFinalChunks_is_final ha]
    rw [h0]
    simp [finalChunk_is_final]
  · rw [generate_streaming, List.getLast?_concat]
    simp [finalChunk_is_final]

/-- C7 counterexample: when the backend streams no non-empty content the
worker publishes zero TTSRequests, yet the final response text is the canned
default, which by the splitter definition has one non-empty sentence — the
claimed count equality fails. -/
theorem llm_tts_count_counterexample :
    (handle_request ("R".data) [] 0).1 = [] ∧
    (handle_request ("R".data) [] 0).2.text = defaultResponseText ∧
    (splitterSentences defaultResponseText).length = 1 := by decide

/-- C7 amended: whenever at least one non-empty sentence chunk is produced,
the worker publishes one TTSRequest per non-empty chunk with request ids
exactly `R-0, R-1, ...` in sentence order, and the number of TTSRequests
equals the number of non-empty sentences of the final response text by the
splitter definition. (When no non-empty chunk is produced, no TTSRequest is
published and the response text is the canned default — see the
counterexample.) -/
theorem handle_request_tts_fanout (rid : List Char) (deltas : List (List Char)) (n : Nat)
    (hne : (handle_request rid deltas n).1 ≠ []) :
    ((handle_request rid deltas n).1.map fun t => t.request_id) =
      (List.range (handle_request rid deltas n).1.length).map
        (fun i => rid ++ '-' :: (Nat.repr i).data) ∧
    (handle_request rid deltas n).1.length =
      (splitterSentences (handle_request rid deltas n).2.text).length := by
  have hgs : generate_streaming deltas n =
      nonFinalChunks deltas ++ [finalChunk deltas n] := rfl
  obtain ⟨hparts, htext, hids⟩ := consumeChunks_spec rid (nonFinalChunks deltas)
      (finalChunk deltas n) 0
      (fun c hc => ⟨(nonFinalChunks_mem hc).1, (nonFinalChunks_mem hc).2.1⟩)
      (finalChunk_is_final deltas n)
  rw [← hgs] at hparts htext hids
  have h1 : (handle_request rid deltas n).1 =
      (consumeChunks rid 0 (generate_streaming deltas n)).1 := rfl
  have htxt : (handle_request rid deltas n).2.text =
      (if (consumeChunks rid 0 (generate_streaming deltas n)).2.1.isEmpty
       then defaultResponseText
       else joinSpace (consumeChunks rid 0 (generate_streaming deltas n)).2.1) := rfl
  have hKne : (consumeChunks rid 0 (generate_streaming deltas n)).2.1 ≠ [] := by
    intro h0
    apply hne
    rw [h1, ← List.map_eq_nil_iff]
    · rw [htext, h0]
  have hKEmpty : (consumeChunks rid 0 (generate_streaming deltas n)).2.1.isEmpty = false := by
    simp [List.isEmpty_iff, hKne]
  have htxt2 : (handle_request rid deltas n).2.text =
      joinSpace (consumeChunks rid 0 (generate_streaming deltas n)).2.1 := by
    rw [htxt, hKEmpty]
    simp
  have hgood : ∀ p ∈ (consumeChunks rid 0 (generate_streaming deltas n)).2.1, partGood p := by
    intro p hp
    rw [hparts] at hp
    rcases List.mem_append.mp hp with h | h
    · obtain ⟨c, hc, hcp⟩ := List.mem_map.mp h
      rw [← hcp]
      exact (nonFinalChunks_mem hc).2.2.1
    · by_cases hfemp : (finalChunk deltas n).sentence.isEmpty = true
      · rw [if_pos hfemp] at h
        cases h
      · rw [if_neg hfemp] at h
        have hp2 := List.mem_singleton.mp h
        rw [hp2]
        apply finalChunk_sentence_good
        intro h0
        rw [h0] at hfemp
        exact hfemp rfl
  have hpunct : ∀ p ∈ (consumeChunks rid 0 (generate_streaming deltas n)).2.1.dropLast,
      endsPunct p = true := by
    intro p hp
    rw [hparts] at hp
    by_cases hfemp : (finalChunk deltas n).sentence.isEmpty = true
    · rw [if_pos hfemp, List.append_nil] at hp
      have hmem := ( List.dropLast_prefix _).subset hp
      obtain ⟨c, hc, hcp⟩ := List.mem_map.mp hmem
      rw [← hcp]
      exact (nonFinalChunks_mem hc).2.2.2
    · rw [if_neg hfemp, List.dropLast_concat] at hp
      obtain ⟨c, hc, hcp⟩ := List.mem_map.mp hp
      rw [← hcp]
      exact (nonFinalChunks_mem hc).2.2.2
  have hjoin := splitterSentences_join _ hKne hgood hpunct
  constructor
  · rw [h1, hids]
    refine List.map_congr_left fun i _ => ?_
    simp
  · rw [h1, htxt2, hjoin, ← htext, List.length_map]

/-- C7 witness: on the stream `"Hi. There"` the worker publishes TTSRequests
`R-0` and `R-1`, matching the two splitter sentences of the final text
`"Hi. There"`. -/
theorem handle_request_tts_fanout_witness :
    ((handle_request ("R".data) [("Hi. There".data)] 0).1.map fun t => t.request_id) =
      (List.range (handle_request ("R".data) [("Hi. There".data)] 0).1.length).map
        (fun i => ("R".data) ++ '-' :: (Nat.repr i).data) ∧
    (handle_request ("R".data) [("Hi. There".data)] 0).1.length =
      (splitterSentences (handle_request ("R".data) [("Hi. There".data)] 0).2.text).length :=
  handle_request_tts_fanout ("R".data) [("Hi. There".data)] 0 (by decide)

/-- C2 counterexample: a backend failure before the first sentence
(`httpx.HTTPError` or timeout raised by `generate_streaming`) aborts
`_handle_request`; contrary to the claim the worker publishes no LLMResponse
at all — in particular none with `is_fallback = true`. -/
theorem llm_failure_counterexample :
    llm_run ("r1".data) [] true 0 = ([], none) := by decide

/-- C2 amended: when backend generation fails on the streaming path the
worker never completes the request: no LLMResponse is published. The
round-robin static pool (model `static_fallback`, `is_fallback = true`) is
produced only by `LLMRouter.generate`, which `_handle_request` calls only
when no `ollama` backend is registered. -/
theorem llm_failure_fallback (rid : List Char) (deltas : List (List Char)) (n idx : Nat) :
    (llm_run rid deltas true n).2 = none ∧
    (router_generate (some (Except.error ())) idx).1.model = "static_fallback".data ∧
    (router_generate (some (Except.error ())) idx).1.is_fallback = true ∧
    (router_generate (some (Except.error ())) idx).1.text =
      FALLBACK_RESPONSES.getD (idx % FALLBACK_RESPONSES.length) [] ∧
    (router_generate (some (Except.error ())) idx).2 =
      (idx + 1) % FALLBACK_RESPONSES.length :=
  ⟨rfl, rfl, rfl, rfl, rfl⟩

/-- C1 counterexample: on a concrete LLMResponse the Orchestrator publishes a
TTSRequest to `tts.requests` (the claim says it publishes nothing there). -/
theorem orchestrator_tts_counterexample :
    (handle_llm_response ("q1".data) ("s1".data) ("Hello there.".data)).2 =
      [⟨"q1".data, "Hello there.".data⟩] ∧
    (handle_llm_response ("q1".data) ("s1".data) ("Hello there.".data)).2 ≠ [] := by
  exact ⟨rfl, by decide⟩

/-- C1 amended: for every consumed LLMResponse the Orchestrator persists an
`assistant`-role turn with the full text and, in addition, publishes exactly
one TTSRequest to `tts.requests` carrying the parent request id and the full
text — duplicating the per-sentence dispatch already done by the LLM worker. -/
theorem orchestrator_persists_and_forwards (rid sid text : List Char) :
    (handle_llm_response rid sid text).1 = ⟨sid, "assistant".data, text⟩ ∧
    (handle_llm_response rid sid text).2 = [⟨rid, text⟩] :=
  ⟨rfl, rfl⟩

/-- C8 counterexample: with 30100 ms already buffered (past the claimed
30000 ms cap) an incoming speech chunk produces no emission — there is no
force-emit. -/
theorem vad_no_cap_counterexample :
    bufferedDurationMs overcapSt = 30100 ∧ 30000 < bufferedDurationMs overcapSt ∧
    (process_with_boundary overcapSt true (List.replicate 1600 (1000 : Int))).2 = none := by
  have h : bufferedDurationMs overcapSt = 30100 := by
    show ((List.replicate 301 (List.replicate 1600 (1000 : Int))).map
        fun ch => 2 * ch.length / 32).sum = 30100
    rw [List.map_replicate, List.length_replicate, List.sum_replicate, smul_eq_mul]
  exact ⟨h, by rw [h]; norm_num, rfl⟩

/-- C8 amended: the code has no `MAX_UTTERANCE_MS` hard cap. While the
detector keeps reporting speech `process_with_boundary` never emits,
whatever the buffered duration; it only appends the chunk to the buffer.
Emission happens solely on the silence-end path. -/
theorem vad_no_force_emit (st : VADSt) (chunk : List Int) :
    (process_with_boundary st true chunk).2 = none ∧
    ∃ st2, (process_with_boundary st true chunk).1 = some st2 ∧
      st2.audio_buffer = st.audio_buffer ++ [chunk] :=
  ⟨rfl, _, rfl, rfl⟩

set_option maxRecDepth 4000 in
/-- C3 counterexample: the VAD service forwards a single 10 ms-worth chunk
with detected speech straight to `audio.segments` — no end-of-speech was
declared and fewer than `MIN_SPEECH_CHUNKS` chunks are involved, so the
claimed emission precondition does not hold of the service. -/
theorem vad_worker_counterexample :
    detect_energy_has_speech (List.replicate 160 (1000 : Int)) = true ∧
    process_segment ("s1".data) (List.replicate 160 (1000 : Int))
        (detect_energy_has_speech (List.replicate 160 (1000 : Int))) =
      some ⟨"s1".data, true, List.replicate 160 (1000 : Int), 10⟩ := by decide

/-- C3 amended: the boundary state machine `SileroVAD.process_with_boundary`
emits an utterance only when end-of-speech is declared — the session was
speaking and the silence run reaches `SILENCE_END_CHUNKS` — with at least
`MIN_SPEECH_CHUNKS` buffered chunks, the emitted audio is the concatenated
buffer, and the emission deletes the session state (full reset). The VAD
service itself never invokes this machine: `_process_segment` forwards every
chunk with detected speech directly (see the counterexample). -/
theorem process_with_boundary_emit_conditions (st : VADSt) (hasSpeech : Bool)
    (chunk : List Int) (u : List Int)
    (h : (process_with_boundary st hasSpeech chunk).2 = some u) :
    hasSpeech = false ∧ st.is_speaking = true ∧
    SILENCE_END_CHUNKS ≤ st.silence_chunks + 1 ∧
    MIN_SPEECH_CHUNKS ≤ (st.audio_buffer ++ [chunk]).length ∧
    u = (st.audio_buffer ++ [chunk]).flatten ∧
    (process_with_boundary st hasSpeech chunk).1 = none := by
  cases hasSpeech with
  | true => exact Option.noConfusion h
  | false =>
    have hc := h
    unfold process_with_boundary at hc
    rw [if_neg (by decide : ¬(false = true))] at hc
    by_cases hb : (st.is_speaking && decide (st.silence_chunks + 1 ≥ SILENCE_END_CHUNKS)) = true
    · have hb2 := hb
      rw [Bool.and_eq_true] at hb2
      obtain ⟨hsp, hsil⟩ := hb2
      replace hsil := of_decide_eq_true hsil
      rw [if_pos hb] at hc
      by_cases hlen : MIN_SPEECH_CHUNKS ≤ (vadBufferAfter st chunk).length
      · rw [if_pos hlen] at hc
        have hbuf : vadBufferAfter st chunk = st.audio_buffer ++ [chunk] := by
          simp [vadBufferAfter, hsp]
        refine ⟨rfl, hsp, hsil, ?_, ?_, ?_⟩
        · rw [← hbuf]; exact hlen
        · rw [← hbuf]; exact (Option.some.inj hc).symm
        · unfold process_with_boundary
          rw [if_neg (by decide : ¬(false = true)), if_pos hb, if_pos hlen]
      · rw [if_neg hlen] at hc
        exact Option.noConfusion hc
    · rw [if_neg hb] at hc
      exact Option.noConfusion hc

/-- C3 witness: a speaking session at silence run 9 with two buffered chunks
receives a tenth silence chunk and emits the three-chunk utterance, deleting
the session state. -/
theorem process_with_boundary_emit_conditions_witness :
    false = false ∧ emitReadySt.is_speaking = true ∧
    SILENCE_END_CHUNKS ≤ emitReadySt.silence_chunks + 1 ∧
    MIN_SPEECH_CHUNKS ≤ (emitReadySt.audio_buffer ++ [[7]]).length ∧
    ([1000, 1000, 7] : List Int) = (emitReadySt.audio_buffer ++ [[7]]).flatten ∧
    (process_with_boundary emitReadySt false [7]).1 = none :=
  process_with_boundary_emit_conditions emitReadySt false [7] [1000, 1000, 7] (by decide)

/-- C4: the gateway endpoint only ever calls `receive_bytes()`: the
JSON text frame of the repository's own streaming client kills the receive
loop and nothing is published for the connection, and a binary frame is
routed with `is_streaming = false`. (The claim — both frame types routed with
the flag preserved — fails; `routing.py` supports the flag but
`websocket_endpoint` never parses a text frame nor passes
`is_streaming=True`.) -/
theorem gateway_text_frame_dropped :
    (websocket_receive_loop ("companion-001".data) freshRouterSt
        [WSFrame.text streamTextFrameMsg, WSFrame.binary (List.replicate 1600 0)]).2 = [] ∧
    ((websocket_receive_loop ("companion-001".data) freshRouterSt
        [WSFrame.binary (List.replicate 1600 0)]).2.map fun r => r.is_streaming) = [false] :=
  ⟨rfl, rfl⟩

/-- C5: after a disconnect and reconnect of the same device the audio routed
for the new connection carries the same session id as the previous
connection: `AudioRouter.reset_session` is never called by the gateway, so
`_get_session_id` keeps returning the stored id. -/
theorem gateway_reconnect_same_session :
    ((gateway_run ("companion-001".data) freshRouterSt
        [[WSFrame.binary (List.replicate 1600 0)], [WSFrame.binary (List.replicate 1600 0)]]).2.map
      fun conn => conn.map fun r => r.session_id) =
    [["companion-001".data ++ '-' :: (Nat.repr 0).data],
     ["companion-001".data ++ '-' :: (Nat.repr 0).data]] := by
  rfl

/-- `ORDER BY id DESC LIMIT k` followed by `reversed(...)` on an
insertion-ordered table is exactly the chronological suffix of length at
most `k`. -/
theorem get_conversation_history_spec (db : List OrchTurn) (sid : List Char) (k : Nat) :
    get_conversation_history db sid k =
      ((db.filter fun t => t.session_id == sid).drop
        ((db.filter fun t => t.session_id == sid).length - k)).map
        fun t => (t.role, t.content) := by
  unfold get_conversation_history
  rw [List.take_reverse, List.reverse_reverse]

/-- Every turn the orchestrator ever persists has role `user` or
`assistant`: the transcript handler writes `user` turns and the LLM-response
handler writes `assistant` turns, and nothing else writes. -/
theorem orch_db_roles (events : List OrchEvent) :
    ∀ t ∈ orch_db_run events, t.role = "user".data ∨ t.role = "assistant".data := by
  suffices h : ∀ (db : List OrchTurn),
      (∀ t ∈ db, t.role = "user".data ∨ t.role = "assistant".data) →
      ∀ t ∈ events.foldl orch_db_step db,
        t.role = "user".data ∨ t.role = "assistant".data by
    exact h [] (by simp)
  induction events with
  | nil => intro db hdb; simpa using hdb
  | cons e es ih =>
    intro db hdb
    rw [List.foldl_cons]
    apply ih
    intro t ht
    cases e with
    | transcript sid text =>
      simp only [orch_db_step, handle_transcript] at ht
      split at ht
      · exact hdb t ht
      · rcases List.mem_append.mp ht with h | h
        · exact hdb t h
        · rw [List.mem_singleton.mp h]
          exact Or.inl rfl
    | llmResponse rid sid text =>
      simp only [orch_db_step] at ht
      rcases List.mem_append.mp ht with h | h
      · exact hdb t h
      · rw [List.mem_singleton.mp h]
        exact Or.inr rfl

/-- C9: after any sequence of orchestrator events, a non-empty transcript
produces an LLMRequest whose conversation history is exactly the
chronological (oldest to newest) suffix of at most 10 of the turns persisted
for that session, all of which have role `user` or `assistant` — no system
turns. -/
theorem conversation_history_window (events : List OrchEvent) (sid text : List Char)
    (h : (stripChars text).isEmpty = false) :
    ∃ req, (handle_transcript (orch_db_run events) sid text).2 = some req ∧
      req.conversation_history =
        (((orch_db_run events).filter fun t => t.session_id == sid).drop
          (((orch_db_run events).filter fun t => t.session_id == sid).length - 10)).map
          (fun t => (t.role, t.content)) ∧
      req.max_tokens = 60 ∧
      ∀ e ∈ req.conversation_history,
        e.1 = "user".data ∨ e.1 = "assistant".data := by
  refine ⟨⟨sid, text, get_conversation_history (orch_db_run events) sid 10, 60⟩,
    ?_, get_conversation_history_spec _ _ _, rfl, ?_⟩
  · simp [handle_transcript, h]
  · intro e he
    rw [get_conversation_history_spec] at he
    obtain ⟨t, ht, hte⟩ := List.mem_map.mp he
    have ht2 : t ∈ orch_db_run events :=
      List.mem_of_mem_filter (List.drop_subset _ _ ht)
    rw [← hte]
    exact orch_db_roles events t ht2

/-- C9 witness: one transcript and one LLM response for session `s`, then a
fresh transcript builds its request from the two persisted turns. -/
theorem conversation_history_window_witness :
    ∃ req, (handle_transcript
        (orch_db_run [OrchEvent.transcript ("s".data) ("Hi.".data),
                      OrchEvent.llmResponse ("r".data) ("s".data) ("Hello.".data)])
        ("s".data) ("Yo.".data)).2 = some req ∧
      req.conversation_history =
        (((orch_db_run [OrchEvent.transcript ("s".data) ("Hi.".data),
                        OrchEvent.llmResponse ("r".data) ("s".data) ("Hello.".data)]).filter
            fun t => t.session_id == ("s".data)).drop
          (((orch_db_run [OrchEvent.transcript ("s".data) ("Hi.".data),
                          OrchEvent.llmResponse ("r".data) ("s".data) ("Hello.".data)]).filter
              fun t => t.session_id == ("s".data)).length - 10)).map
          (fun t => (t.role, t.content)) ∧
      req.max_tokens = 60 ∧
      ∀ e ∈ req.conversation_history,
        e.1 = "user".data ∨ e.1 = "assistant".data :=
  conversation_history_window
    [OrchEvent.transcript ("s".data) ("Hi.".data),
     OrchEvent.llmResponse ("r".data) ("s".data) ("Hello.".data)]
    ("s".data) ("Yo.".data) (by decide)

/-- C10: a TTSRequest whose text is empty or whitespace-only is dropped
silently: the worker publishes nothing to `audio.outbound` and raises no
error. -/
theorem tts_empty_text_dropped (synthesize : List Char → List Int × Nat)
    (rid sid text : List Char) (h : stripChars text = []) :
    tts_handle_request synthesize rid sid text = none := by
  simp [tts_handle_request, h]

/-- C10 witness: a whitespace-only request is dropped. -/
theorem tts_empty_text_dropped_witness :
    tts_handle_request (fun _ => ([], 0)) ("r9".data) ("s9".data) ("  ".data) = none :=
  tts_empty_text_dropped (fun _ => ([], 0)) ("r9".data) ("s9".data) ("  ".data) (by decide)

end Cairu
